import Mathlib

/-!
Shallow embedding of the backup orchestration core of the backyardBackup
repository (Go), covering:

* the metadata-driven catalog (`ListBackups` / `GetBackup` / `DeleteBackup`
  in `internal/backup/incremental.go` and the two `FullBackup` variants),
* incremental base-backup resolution (`findLatestFullBackup`),
* the pipe-based streaming backup (`FullBackup.Backup` / `IncrementalBackup.Backup`),
* the storage path convention (`filepath.Join` + `time.Format("20060102-150405")`),
* table filtering (`filterTables`),
* the local provider's metadata sidecar round trip (`saveMetadata` / `loadMetadata`).

Storage providers are used by the backup layer only through the
`storage.Provider` interface; the model provider below implements that
interface's documented contract over an abstract object store (a list of
objects with path, size, modification time and a metadata map), which is how
the cloud providers behave.  The local provider's faulty sidecar parsing is
modelled separately where a claim is about it.

Go `time.Time` values are observable by this layer only through
`Format("20060102-150405")` (storage paths) and `Format(time.RFC3339)` /
`time.Parse(time.RFC3339)` (object metadata), all of which are second
granularity, so time is modelled as a broken-down date-time tuple.
-/

/-- Go map read `m["k"]` on a `map[string]string`: returns the stored value,
or the zero value `""` when the key is absent. -/
def metaGet (m : List (String × String)) (k : String) : String :=
  (((m.find? (fun p => p.1 == k)).map (fun p => p.2)).getD "")

/-- Go map write `m[k] = v`: overwrite an existing binding or add a new one. -/
def upsertMeta (m : List (String × String)) (k v : String) : List (String × String) :=
  if m.any (fun p => p.1 == k) then
    m.map (fun p => if p.1 == k then (k, v) else p)
  else
    m ++ [(k, v)]

/-- Broken-down Go time (`time.Time`) at the second granularity observable
through the formats used by the backup layer. -/
structure GoTime where
  year : Nat
  month : Nat
  day : Nat
  hour : Nat
  minute : Nat
  second : Nat
 deriving DecidableEq, Repr

/-- Numeric key of the date part, `YYYYMMDD` as a number. -/
def GoTime.ymdKey (t : GoTime) : Nat :=
  (t.year * 100 + t.month) * 100 + t.day

/-- Numeric key of the time-of-day part, `HHMMSS` as a number. -/
def GoTime.hmsKey (t : GoTime) : Nat :=
  (t.hour * 100 + t.minute) * 100 + t.second

/-- Numeric key of the full timestamp; orders timestamps chronologically. -/
def GoTime.key (t : GoTime) : Nat :=
  t.ymdKey * 1000000 + t.hmsKey

/-- Chronological strict order on timestamps. -/
def GoTime.lt (t u : GoTime) : Prop :=
  t.key < u.key

instance : DecidablePred fun p : GoTime × GoTime => GoTime.lt p.1 p.2 :=
  fun p => Nat.decLt p.1.key p.2.key

instance goTimeLtDecidable (t u : GoTime) : Decidable (GoTime.lt t u) :=
  Nat.decLt t.key u.key

/-- Go `t.After(u)`: strictly later than. -/
def GoTime.after (t u : GoTime) : Bool :=
  Nat.blt u.key t.key

/-- Calendar bounds satisfied by every real Go time value. -/
def validTime (t : GoTime) : Prop :=
  t.year ≤ 9999 ∧ 1 ≤ t.month ∧ t.month ≤ 12 ∧ 1 ≤ t.day ∧ t.day ≤ 31 ∧
    t.hour ≤ 23 ∧ t.minute ≤ 59 ∧ t.second ≤ 59

instance validTimeDecidable (t : GoTime) : Decidable (validTime t) := by
  unfold validTime; infer_instance

/-- Fixed-width zero-padded decimal rendering, the digit output of Go's
`time.Format` layout fields (`2006`, `01`, `02`, `15`, `04`, `05`). -/
def padDigits : Nat → Nat → List Char
  | 0, _ => []
  | w + 1, n => Nat.digitChar (n / 10 ^ w) :: padDigits w (n % 10 ^ w)

/-- Go `startTime.Format("20060102-150405")`: compact sortable timestamp used
inside storage paths. -/
def formatCompact (t : GoTime) : String :=
  String.mk (padDigits 8 t.ymdKey ++ '-' :: padDigits 6 t.hmsKey)

/-- Go `startTime.Format(time.RFC3339)` for a UTC time: the `start_time`
metadata value. -/
def formatRFC3339 (t : GoTime) : String :=
  String.mk (padDigits 4 t.year ++ '-' :: padDigits 2 t.month ++ '-' :: padDigits 2 t.day ++
    'T' :: padDigits 2 t.hour ++ ':' :: padDigits 2 t.minute ++ ':' :: padDigits 2 t.second ++
    ['Z'])

/-- Value of a decimal digit character. -/
def digitVal (c : Char) : Nat := c.toNat - 48

/-- Go `time.Parse(time.RFC3339, s)` restricted to the canonical UTC form the
backup layer writes, with the range checks `time.Parse` performs; on any
failure the caller (`ListBackups`) ignores the error and keeps the zero
`time.Time`, which is `0001-01-01 00:00:00`. -/
def parseRFC3339 (s : String) : GoTime :=
  match s.data with
  | [y1, y2, y3, y4, c1, m1, m2, c2, d1, d2, c3, h1, h2, c4, i1, i2, c5, s1, s2, c6] =>
    if ([y1, y2, y3, y4, m1, m2, d1, d2, h1, h2, i1, i2, s1, s2].all Char.isDigit) &&
        (c1 == '-') && (c2 == '-') && (c3 == 'T') && (c4 == ':') && (c5 == ':') && (c6 == 'Z') then
      let t : GoTime :=
        { year := ((digitVal y1 * 10 + digitVal y2) * 10 + digitVal y3) * 10 + digitVal y4
          month := digitVal m1 * 10 + digitVal m2
          day := digitVal d1 * 10 + digitVal d2
          hour := digitVal h1 * 10 + digitVal h2
          minute := digitVal i1 * 10 + digitVal i2
          second := digitVal s1 * 10 + digitVal s2 }
      if validTime t then t else ⟨1, 1, 1, 0, 0, 0⟩
    else ⟨1, 1, 1, 0, 0, 0⟩
  | _ => ⟨1, 1, 1, 0, 0, 0⟩

/-- Go `fmt.Sprintf("%v", b)` on a bool. -/
def goBoolString (b : Bool) : String :=
  if b then "true" else "false"

/-- `storage.FileInfo` (internal/storage/provider.go): metadata about one
stored object. -/
structure FileInfo where
  path : String
  size : Int
  lastModified : GoTime
  contentType : String := ""
  isDirectory : Bool := false
  metadata : List (String × String) := []
 deriving DecidableEq, Repr

/-- The object store behind a `storage.Provider`: the set of stored objects. -/
abbrev StorageState := List FileInfo

/-- Go `strings.HasPrefix`, computed on the character lists. -/
def strHasPre (p s : String) : Bool :=
  List.isPrefixOf p.data s.data

/-- Go `strings.HasSuffix`, computed on the character lists. -/
def strHasSuffix (suf s : String) : Bool :=
  List.isSuffixOf suf.data s.data

/-- `Provider.List(ctx, p)` under the documented contract (spec section 4.2):
every stored object whose path has the given string as a prefix, with its full
metadata map. -/
def provList (st : StorageState) (p : String) : List FileInfo :=
  st.filter (fun f => strHasPre p f.path)

/-- `Provider.GetInfo(ctx, path)`: the stored object at the path, when one
exists. -/
def provGetInfo (st : StorageState) (p : String) : Option FileInfo :=
  st.find? (fun f => f.path == p)

/-- `Provider.Store(ctx, path, r, metadata)` under the documented contract:
durably persist the streamed bytes and the caller-supplied metadata map at the
path, replacing any previous object there. -/
def provStore (st : StorageState) (p : String) (size : Int)
    (md : List (String × String)) (mtime : GoTime) : StorageState :=
  st.filter (fun f => !(f.path == p)) ++
    [{ path := p, size := size, lastModified := mtime, metadata := md }]

/-- `Provider.Delete(ctx, path)`: remove the object at the path; an error when
no such object exists (`os.Remove` on a missing file). -/
def provDelete (st : StorageState) (p : String) : Except String StorageState :=
  if st.any (fun f => f.path == p) then
    Except.ok (st.filter (fun f => !(f.path == p)))
  else
    Except.error "failed to delete file"

/-- `backup.BackupResult` (internal/backup/backup.go).  `Type` is a Lean
keyword, so the field is named `typ`; `backup.BackupType` is a string type
with values `"full"`, `"incremental"`, `"differential"`. -/
structure BackupResult where
  ID : String
  typ : String
  startTime : GoTime
  endTime : GoTime
  size : Int
  fileCount : Nat
  storagePath : String
  isCompressed : Bool
  success : Bool
  errorMessage : String
 deriving DecidableEq, Repr

/-- `backup.BackupOptions` (internal/backup/backup.go). -/
structure BackupOptions where
  typ : String
  compress : Bool
  sourceDB : String
  destStorage : String
  excludeTables : List String
  includeTables : List String
  maxSize : Int
 deriving DecidableEq, Repr

/-- Behaviour of the `database.Connector` collaborator during one backup run:
the engine type, the outcome of `ListTables`, the outcome of `GetInfo`, the
terminal outcome the dump goroutine reports on the completion channel, and the
bytes the dump wrote through the pipe before terminating. -/
structure ConnEnv where
  dbType : String
  listTablesResult : Except String (List String)
  dbInfoResult : Except String (List (String × String))
  dumpOutcome : Except String Unit
  dumpData : List Nat
 deriving Repr

/-- Environment of one `Backup` invocation: the connector behaviour, the
values of the two `time.Now()` calls, the modification time the stored object
ends up with, the generated `uuid`, and the outcome of the provider's `Store`
call. -/
structure RunEnv where
  conn : ConnEnv
  now : GoTime
  mtime : GoTime
  endNow : GoTime
  newId : String
  storeOutcome : Except String Unit
 deriving Repr

/-- Observable outcome of one `Backup` invocation: the returned value, the
object store afterwards, the paths passed to `Provider.Store` (in call order),
and the table lists handed to `Connector.Backup` (in call order). -/
structure RunOut where
  result : Except String BackupResult
  state : StorageState
  storeCalls : List String
  handed : List (List String)
 deriving Repr

/-- `isBackupFile` (internal/backup/incremental.go): recognition by path
suffix. -/
def isBackupFile (path : String) : Bool :=
  strHasSuffix ".db" path || strHasSuffix ".db.gz" path

/-- `filterTables` (internal/backup/incremental.go and the pipe-based full
backup file): two passes over the caller's list, an include pass via a
membership map when `include` is non-empty, then an exclude pass via a
membership map when `exclude` is non-empty. -/
def filterTables (tables incl excl : List String) : List String :=
  if incl.length = 0 ∧ excl.length = 0 then tables
  else
    let tables1 := if 0 < incl.length then tables.filter (fun t => incl.contains t) else tables
    let tables2 := if 0 < excl.length then tables1.filter (fun t => !(excl.contains t)) else tables1
    tables2

/-- Modelled from the spec's words (claim C8, spec section 3): all of `T` when
both filters are empty, otherwise the elements of `T` that are in `include`
(when `include` is non-empty) and not in `exclude`, in their original order. -/
def specFilterTables (tables incl excl : List String) : List String :=
  if incl = [] ∧ excl = [] then tables
  else tables.filter (fun t => (decide (incl = []) || incl.contains t) && !(excl.contains t))

/-- `strings.Join(elems, "/")`, the join step of `filepath.Join`. -/
def joinSlash : List String → String
  | [] => ""
  | [p] => p
  | p :: ps => p ++ "/" ++ joinSlash ps

/-- Go `filepath.Join` on Unix: drop empty elements, join with `"/"`, then
`Clean`.  `Clean` is the identity on every path formed here, because the
theorems below only apply it to non-empty components that contain no `/` and
are neither `"."` nor `".."`, so it is elided. -/
def goJoin (parts : List String) : String :=
  joinSlash (parts.filter (fun s => !(s == "")))

/-- A path component on which `filepath.Clean` is inert. -/
def cleanComp (s : String) : Prop :=
  s ≠ "" ∧ s.data.contains '/' = false ∧ s ≠ "." ∧ s ≠ ".."

instance cleanCompDecidable (s : String) : Decidable (cleanComp s) := by
  unfold cleanComp; infer_instance

/-- Storage path construction shared by the backup strategies:
`filepath.Join(string(b.DB.Type()), dbName, kind,
fmt.Sprintf("%s-%s.db", startTime.Format("20060102-150405"), backupID))`
followed by appending `".gz"` when compression is on. -/
def buildBackupPath (engine dbName kind : String) (t : GoTime) (id : String)
    (compress : Bool) : String :=
  let p := goJoin [engine, dbName, kind,
    formatCompact t ++ "-" ++ id ++ ".db"]
  if compress then p ++ ".gz" else p

/-- Modelled from the spec's words (claim C6, spec section 6):
`{engineType}/{sourceDbName}/{kind}/{startTime:compact-sortable}-{backupId}.db[.gz]`. -/
def specStoragePath (engine dbName kind : String) (t : GoTime) (id : String)
    (compress : Bool) : String :=
  engine ++ "/" ++ dbName ++ "/" ++ kind ++ "/" ++ formatCompact t ++ "-" ++ id ++ ".db" ++
    (if compress then ".gz" else "")

/-- JSON rendering of a string list, for the engine-specific metadata blob. -/
def jsonStringArray (l : List String) : String :=
  "[" ++ String.intercalate "," (l.map (fun s => "\"" ++ s ++ "\"")) ++ "]"

/-- JSON rendering of a string map, for the engine-specific metadata blob. -/
def jsonStringMap (m : List (String × String)) : String :=
  "\x7b" ++ String.intercalate "," (m.map (fun p => "\"" ++ p.1 ++ "\":\"" ++ p.2 ++ "\"")) ++ "\x7d"

/-- `json.Marshal` of `IncrementalMetadata` (internal/backup/incremental.go);
the `changes` map is always empty at this point in the code. -/
def incMetadataJson (baseId : String) (ts : GoTime) : String :=
  "\x7b\"base_backup_id\":\"" ++ baseId ++ "\",\"changes\":\x7b\x7d,\"timestamp\":\"" ++
    formatRFC3339 ts ++ "\"\x7d"

/-- `json.Marshal` of `FullMetadata` (pipe-based full backup file). -/
def fullMetadataJson (tables : List String) (dbInfo : List (String × String))
    (ts : GoTime) : String :=
  "\x7b\"tables\":" ++ jsonStringArray tables ++ ",\"db_info\":" ++ jsonStringMap dbInfo ++
    ",\"timestamp\":\"" ++ formatRFC3339 ts ++ "\"\x7d"

/-- The `BackupResult` rebuilt from one storage object by
`IncrementalBackup.ListBackups` and the pipe-based `FullBackup.ListBackups`:
`StoragePath` comes from the `List` entry, every other field from the
`GetInfo` result, with Go zero values for missing or unparsable metadata
fields; `Success` is always `true` and `EndTime` is the object's modification
time. -/
def incRec (path : String) (info : FileInfo) : BackupResult :=
  { ID := metaGet info.metadata "backup_id"
    typ := metaGet info.metadata "backup_type"
    startTime := parseRFC3339 (metaGet info.metadata "start_time")
    endTime := info.lastModified
    size := info.size
    fileCount := 0
    storagePath := path
    isCompressed := metaGet info.metadata "is_compressed" == "true"
    success := true
    errorMessage := "" }

/-- `IncrementalBackup.ListBackups` (internal/backup/incremental.go): list all
objects, keep those whose path has the backup suffix, fetch each one's info
(skipping on error), and rebuild a `BackupResult` from the metadata map. -/
def incListBackups (st : StorageState) : List BackupResult :=
  (provList st "").filterMap (fun file =>
    if isBackupFile file.path then
      match provGetInfo st file.path with
      | none => none
      | some info => some (incRec file.path info)
    else none)

/-- `FullBackup.ListBackups` of the pipe-based variant: textually the same
code as `IncrementalBackup.ListBackups`. -/
def fullListBackupsPipe (st : StorageState) : List BackupResult :=
  (provList st "").filterMap (fun file =>
    if isBackupFile file.path then
      match provGetInfo st file.path with
      | none => none
      | some info => some (incRec file.path info)
    else none)

/-- Go `strings.Split(s, "/")`, accumulator form. -/
def splitSlashAux : List Char → List Char → List String
  | [], acc => [String.mk acc.reverse]
  | c :: cs, acc =>
    if c == '/' then String.mk acc.reverse :: splitSlashAux cs []
    else splitSlashAux cs (c :: acc)

/-- Go `strings.Split(s, "/")`. -/
def splitSlash (s : String) : List String :=
  splitSlashAux s.data []

/-- Go `filepath.Base(filepath.Dir(path))` for the slash-separated relative
paths used here: the second-to-last path component, `"."` when there is no
directory part. -/
def parentDirBase (p : String) : String :=
  let parts := splitSlash p
  if parts.length ≥ 2 then parts.getD (parts.length - 2) "." else "."

/-- The `BackupResult` rebuilt from one storage object by the buffered
`FullBackup.ListBackups`; this variant reads the `compressed` metadata key. -/
def bufRec (path : String) (info : FileInfo) : BackupResult :=
  { ID := metaGet info.metadata "backup_id"
    typ := "full"
    startTime := parseRFC3339 (metaGet info.metadata "start_time")
    endTime := info.lastModified
    size := info.size
    fileCount := 1
    storagePath := path
    isCompressed := metaGet info.metadata "compressed" == "true"
    success := true
    errorMessage := "" }

/-- `FullBackup.ListBackups` of the buffered variant: list under the engine
type, skip directories, keep objects whose parent directory is `full`, skip on
`GetInfo` error, require `backup_type` metadata `"full"` and a non-empty
`backup_id`. -/
def fullListBackupsBuf (dbType : String) (st : StorageState) : List BackupResult :=
  (provList st dbType).filterMap (fun file =>
    if file.isDirectory then none
    else if !(parentDirBase file.path == "full") then none
    else
      match provGetInfo st file.path with
      | none => none
      | some fileInfo =>
        if !(metaGet fileInfo.metadata "backup_type" == "full") then none
        else if metaGet fileInfo.metadata "backup_id" == "" then none
        else some (bufRec file.path fileInfo))

/-- Loop body of `findLatestFullBackup`: keep the running entry of type
`full` with the strictly latest `StartTime` (`backup.StartTime.After`). -/
def latestStep (acc : Option BackupResult) (b : BackupResult) : Option BackupResult :=
  if b.typ == "full" then
    match acc with
    | none => some b
    | some l => if b.startTime.after l.startTime then some b else some l
  else acc

/-- `IncrementalBackup.findLatestFullBackup` (internal/backup/incremental.go):
scan the catalog keeping the entry of type `full` with the strictly latest
`StartTime`; the `dbName` argument is used only in the error message. -/
def findLatestFullBackup (st : StorageState) (dbName : String) : Except String BackupResult :=
  match (incListBackups st).foldl latestStep none with
  | none => Except.error ("no full backup found for database " ++ dbName)
  | some l => Except.ok l

/-- `IncrementalBackup.GetBackup` (internal/backup/incremental.go): linear
scan of the catalog for the first record with the requested id. -/
def incGetBackup (st : StorageState) (id : String) : Except String BackupResult :=
  match (incListBackups st).find? (fun b => b.ID == id) with
  | some b => Except.ok b
  | none => Except.error ("backup " ++ id ++ " not found")

/-- `IncrementalBackup.DeleteBackup` (internal/backup/incremental.go):
resolve the id to its storage path via `GetBackup`, then delegate to
`Provider.Delete`; the same code appears as `FullBackup.DeleteBackup` in the
pipe-based variant. -/
def incDeleteBackup (st : StorageState) (id : String) : Except String StorageState :=
  match incGetBackup st id with
  | Except.error e => Except.error ("failed to get backup: " ++ e)
  | Except.ok b =>
    match provDelete st b.storagePath with
    | Except.error e => Except.error ("failed to delete backup: " ++ e)
    | Except.ok st1 => Except.ok st1

/-- `IncrementalBackup.Backup` (internal/backup/incremental.go): resolve the
base backup, list and filter tables, build path and metadata, run the dump
goroutine and `Provider.Store` coupled by an `io.Pipe`, then read the
completion channel and `GetInfo`.  The dump goroutine closes the pipe with
`pw.Close()` — not `CloseWithError` — so the consumer sees a clean
end-of-stream and the `Store` outcome is independent of the dump outcome;
`Store` receives whatever bytes the dump wrote before terminating.  The
nil-receiver guards are omitted: both collaborators are present here. -/
def incBackup (env : RunEnv) (st : StorageState) (opts : BackupOptions) : RunOut :=
  match findLatestFullBackup st opts.sourceDB with
  | Except.error e => ⟨Except.error ("failed to find base backup: " ++ e), st, [], []⟩
  | Except.ok base =>
    match env.conn.listTablesResult with
    | Except.error e => ⟨Except.error ("failed to list tables: " ++ e), st, [], []⟩
    | Except.ok allTables =>
      let tables := filterTables allTables opts.includeTables opts.excludeTables
      let backupPath := buildBackupPath env.conn.dbType opts.sourceDB "incremental"
        env.now env.newId opts.compress
      let md := [("backup_type", "incremental"),
                 ("base_backup", base.ID),
                 ("backup_id", env.newId),
                 ("source_db", opts.sourceDB),
                 ("start_time", formatRFC3339 env.now),
                 ("metadata", incMetadataJson base.ID env.now),
                 ("is_compressed", goBoolString opts.compress)]
      match env.storeOutcome with
      | Except.error e =>
        ⟨Except.error ("failed to store backup: " ++ e), st, [backupPath], [tables]⟩
      | Except.ok _ =>
        let st1 := provStore st backupPath (Int.ofNat env.conn.dumpData.length) md env.mtime
        match env.conn.dumpOutcome with
        | Except.error e =>
          ⟨Except.error ("failed to create backup: " ++ e), st1, [backupPath], [tables]⟩
        | Except.ok _ =>
          match provGetInfo st1 backupPath with
          | none => ⟨Except.error "failed to get backup info", st1, [backupPath], [tables]⟩
          | some info =>
            ⟨Except.ok { ID := env.newId
                         typ := "incremental"
                         startTime := env.now
                         endTime := env.endNow
                         size := info.size
                         fileCount := 0
                         storagePath := backupPath
                         isCompressed := opts.compress
                         success := true
                         errorMessage := "" }, st1, [backupPath], [tables]⟩

/-- `FullBackup.Backup` of the pipe-based variant: list and filter tables,
fetch database info, build path and metadata, run the dump goroutine and
`Provider.Store` coupled by an `io.Pipe`, then read the completion channel and
`GetInfo`; same pipe semantics as the incremental variant. -/
def fullBackupPipe (env : RunEnv) (st : StorageState) (opts : BackupOptions) : RunOut :=
  match env.conn.listTablesResult with
  | Except.error e => ⟨Except.error ("failed to list tables: " ++ e), st, [], []⟩
  | Except.ok allTables =>
    let tables := filterTables allTables opts.includeTables opts.excludeTables
    match env.conn.dbInfoResult with
    | Except.error e => ⟨Except.error ("failed to get database info: " ++ e), st, [], []⟩
    | Except.ok dbInfo =>
      let backupPath := buildBackupPath env.conn.dbType opts.sourceDB "full"
        env.now env.newId opts.compress
      let md := [("backup_type", "full"),
                 ("backup_id", env.newId),
                 ("source_db", opts.sourceDB),
                 ("start_time", formatRFC3339 env.now),
                 ("metadata", fullMetadataJson tables dbInfo env.now),
                 ("is_compressed", goBoolString opts.compress)]
      match env.storeOutcome with
      | Except.error e =>
        ⟨Except.error ("failed to store backup: " ++ e), st, [backupPath], [tables]⟩
      | Except.ok _ =>
        let st1 := provStore st backupPath (Int.ofNat env.conn.dumpData.length) md env.mtime
        match env.conn.dumpOutcome with
        | Except.error e =>
          ⟨Except.error ("failed to create backup: " ++ e), st1, [backupPath], [tables]⟩
        | Except.ok _ =>
          match provGetInfo st1 backupPath with
          | none => ⟨Except.error "failed to get backup info", st1, [backupPath], [tables]⟩
          | some info =>
            ⟨Except.ok { ID := env.newId
                         typ := "full"
                         startTime := env.now
                         endTime := env.endNow
                         size := info.size
                         fileCount := 0
                         storagePath := backupPath
                         isCompressed := opts.compress
                         success := true
                         errorMessage := "" }, st1, [backupPath], [tables]⟩

/-- `saveMetadata` (local provider): the sidecar file content, one
`key=value` line per entry. -/
def saveMetadataContent (md : List (String × String)) : String :=
  String.join (md.map (fun p => p.1 ++ "=" ++ p.2 ++ "\n"))

/-- Outcome of one `fmt.Fscanf(file, "%s=%s\n", &key, &value)` call: end of
input before any verb, a matching failure (with the input position where
scanning stopped), or a successful scan of both verbs. -/
inductive ScanRes where
  | eof : ScanRes
  | fail : List Char → ScanRes
  | ok : String → String → List Char → ScanRes

/-- Maximal run of non-whitespace characters, the token a `%s` verb
consumes. -/
def scanToken : List Char → List Char × List Char
  | [] => ([], [])
  | c :: cs =>
    if c == ' ' || c == '\t' || c == '\n' then ([], c :: cs)
    else
      let (tok, rest) := scanToken cs
      (c :: tok, rest)

/-- One `fmt.Fscanf(file, "%s=%s\n", &key, &value)` attempt.  In `Fscanf`
mode a `%s` verb skips spaces and tabs but errors on a newline
("unexpected newline", consuming it), then reads a maximal non-whitespace
token; a literal format character must match the next input character
exactly.  Because the first `%s` is greedy, it swallows any `=` inside the
token, so the literal `=` of the format is matched against the character that
terminated the token. -/
def fscanfKV : List Char → ScanRes
  | [] => ScanRes.eof
  | c :: cs =>
    if c == ' ' || c == '\t' then fscanfKV cs
    else if c == '\n' then ScanRes.fail cs
    else
      let (tok, rest) := scanToken (c :: cs)
      match rest with
      | '=' :: rest1 =>
        match rest1 with
        | [] => ScanRes.fail []
        | d :: ds =>
          if d == ' ' || d == '\t' then ScanRes.fail (d :: ds)
          else if d == '\n' then ScanRes.fail ds
          else
            let (tok2, rest2) := scanToken (d :: ds)
            match rest2 with
            | '\n' :: rest3 => ScanRes.ok (String.mk tok) (String.mk tok2) rest3
            | _ => ScanRes.fail rest2
      | _ => ScanRes.fail rest

/-- The `loadMetadata` read loop: repeat `Fscanf`; on success store the pair
(Go map assignment), on a non-EOF error continue from where scanning stopped,
on EOF stop.  Every non-EOF attempt consumes at least one character, so fuel
one beyond the input length never runs out. -/
def loadMetaLoop : Nat → List Char → List (String × String) → List (String × String)
  | 0, _, acc => acc
  | fuel + 1, cs, acc =>
    match fscanfKV cs with
    | ScanRes.eof => acc
    | ScanRes.fail rest => loadMetaLoop fuel rest acc
    | ScanRes.ok k v rest => loadMetaLoop fuel rest (upsertMeta acc k v)

/-- `loadMetadata` (local provider): parse the sidecar file content with the
`Fscanf` loop, returning whatever pairs were successfully scanned. -/
def loadMetadataModel (content : String) : List (String × String) :=
  loadMetaLoop (content.data.length + 1) content.data []

/-- Whether an `Except` value is a success. -/
def exceptIsOk {α : Type} : Except String α → Bool
  | Except.ok _ => true
  | Except.error _ => false

/-- Storage state for claim C1: the only Full backup in the catalog belongs to
database `other`, not to the target database `test`. -/
def c1State : StorageState :=
  [{ path := "sqlite/other/full/20240101-000000-aaa.db", size := 10,
     lastModified := ⟨2024, 1, 1, 0, 0, 7⟩,
     metadata := [("backup_type", "full"), ("backup_id", "aaa"), ("source_db", "other"),
                  ("start_time", "2024-01-01T00:00:00Z"), ("is_compressed", "false")] }]

/-- Run environment for claim C1: connector and provider both succeed. -/
def c1Env : RunEnv :=
  { conn := { dbType := "sqlite", listTablesResult := Except.ok ["t1"],
              dbInfoResult := Except.ok [("name", "test")],
              dumpOutcome := Except.ok (), dumpData := [1, 2, 3] },
    now := ⟨2024, 2, 2, 3, 4, 5⟩, mtime := ⟨2024, 2, 2, 3, 4, 6⟩,
    endNow := ⟨2024, 2, 2, 3, 4, 7⟩, newId := "newid", storeOutcome := Except.ok () }

/-- Backup options for claim C1: an incremental backup of database `test`. -/
def c1Opts : BackupOptions :=
  { typ := "incremental", compress := false, sourceDB := "test", destStorage := "local",
    excludeTables := [], includeTables := [], maxSize := 0 }

/-- The catalog entry `findLatestFullBackup` selects on `c1State`. -/
def c1Base : BackupResult :=
  { ID := "aaa", typ := "full", startTime := ⟨2024, 1, 1, 0, 0, 0⟩,
    endTime := ⟨2024, 1, 1, 0, 0, 7⟩, size := 10, fileCount := 0,
    storagePath := "sqlite/other/full/20240101-000000-aaa.db",
    isCompressed := false, success := true, errorMessage := "" }

/-- The `BackupResult` the C1 run returns. -/
def c1Res : BackupResult :=
  { ID := "newid", typ := "incremental", startTime := ⟨2024, 2, 2, 3, 4, 5⟩,
    endTime := ⟨2024, 2, 2, 3, 4, 7⟩, size := 3, fileCount := 0,
    storagePath := "sqlite/test/incremental/20240202-030405-newid.db",
    isCompressed := false, success := true, errorMessage := "" }

/-- Storage state for claim C2: a Full backup exists, but only for database
`other`; none exists for the target database `test`. -/
def c2State : StorageState :=
  [{ path := "sqlite/other/full/20240301-000000-bbb.db", size := 4,
     lastModified := ⟨2024, 3, 1, 0, 0, 9⟩,
     metadata := [("backup_type", "full"), ("backup_id", "bbb"), ("source_db", "other"),
                  ("start_time", "2024-03-01T00:00:00Z"), ("is_compressed", "false")] }]

/-- Run environment for claim C2: connector and provider both succeed. -/
def c2Env : RunEnv :=
  { conn := { dbType := "sqlite", listTablesResult := Except.ok ["t1"],
              dbInfoResult := Except.ok [("name", "test")],
              dumpOutcome := Except.ok (), dumpData := [7] },
    now := ⟨2024, 3, 2, 0, 0, 0⟩, mtime := ⟨2024, 3, 2, 0, 0, 1⟩,
    endNow := ⟨2024, 3, 2, 0, 0, 2⟩, newId := "cid", storeOutcome := Except.ok () }

/-- Backup options for claim C2: an incremental backup of database `test`. -/
def c2Opts : BackupOptions :=
  { typ := "incremental", compress := false, sourceDB := "test", destStorage := "local",
    excludeTables := [], includeTables := [], maxSize := 0 }

/-- Run environment for claim C4: the dump goroutine fails mid-stream after
writing two bytes, while the provider's `Store` succeeds. -/
def c4Env : RunEnv :=
  { conn := { dbType := "sqlite", listTablesResult := Except.ok ["t1", "t2"],
              dbInfoResult := Except.ok [("name", "test")],
              dumpOutcome := Except.error "connection reset", dumpData := [1, 2] },
    now := ⟨2024, 4, 1, 10, 0, 0⟩, mtime := ⟨2024, 4, 1, 10, 0, 1⟩,
    endNow := ⟨2024, 4, 1, 10, 0, 2⟩, newId := "id4", storeOutcome := Except.ok () }

/-- Backup options for claim C4: a full backup of database `test`. -/
def c4Opts : BackupOptions :=
  { typ := "full", compress := false, sourceDB := "test", destStorage := "local",
    excludeTables := [], includeTables := [], maxSize := 0 }

/-- Run environment for the claim C5 witness: `Store` fails while the dump
succeeds. -/
def c5Env : RunEnv :=
  { conn := { dbType := "sqlite", listTablesResult := Except.ok ["t1"],
              dbInfoResult := Except.ok [("name", "test")],
              dumpOutcome := Except.ok (), dumpData := [1] },
    now := ⟨2024, 5, 1, 0, 0, 0⟩, mtime := ⟨2024, 5, 1, 0, 0, 1⟩,
    endNow := ⟨2024, 5, 1, 0, 0, 2⟩, newId := "id5", storeOutcome := Except.error "bucket gone" }

/-- Backup options for the claim C5 witness. -/
def c5Opts : BackupOptions :=
  { typ := "full", compress := true, sourceDB := "test", destStorage := "s3",
    excludeTables := [], includeTables := [], maxSize := 0 }

/-- Storage state for claim C7: one object with the backup suffix but no
metadata at all. -/
def c7State : StorageState :=
  [{ path := "x.db", size := 5, lastModified := ⟨2024, 7, 1, 0, 0, 0⟩, metadata := [] }]

/-- Run environment for the claim C8 witness. -/
def c8Env : RunEnv :=
  { conn := { dbType := "sqlite", listTablesResult := Except.ok ["a", "b", "c"],
              dbInfoResult := Except.ok [("name", "test")],
              dumpOutcome := Except.ok (), dumpData := [1] },
    now := ⟨2024, 8, 1, 0, 0, 0⟩, mtime := ⟨2024, 8, 1, 0, 0, 1⟩,
    endNow := ⟨2024, 8, 1, 0, 0, 2⟩, newId := "id8", storeOutcome := Except.ok () }

/-- Backup options for the claim C8 witness: include `a` and `c`, exclude
`c`. -/
def c8Opts : BackupOptions :=
  { typ := "full", compress := false, sourceDB := "test", destStorage := "local",
    excludeTables := ["c"], includeTables := ["a", "c"], maxSize := 0 }

/-- Storage state for the claim C9 witness: exactly one backup, with id
`idA`. -/
def c9State : StorageState :=
  [{ path := "sqlite/mydb/full/20240102-030405-idA.db", size := 12,
     lastModified := ⟨2024, 1, 2, 3, 4, 9⟩,
     metadata := [("backup_type", "full"), ("backup_id", "idA"), ("source_db", "mydb"),
                  ("start_time", "2024-01-02T03:04:05Z"), ("is_compressed", "false")] }]

/-- The catalog entry for `idA` in `c9State`. -/
def c9Rec : BackupResult :=
  { ID := "idA", typ := "full", startTime := ⟨2024, 1, 2, 3, 4, 5⟩,
    endTime := ⟨2024, 1, 2, 3, 4, 9⟩, size := 12, fileCount := 0,
    storagePath := "sqlite/mydb/full/20240102-030405-idA.db",
    isCompressed := false, success := true, errorMessage := "" }

/-- Storage state for the claim C10 witness. -/
def c10State : StorageState :=
  [{ path := "sqlite/mydb/full/20240601-000000-idB.db", size := 3,
     lastModified := ⟨2024, 6, 1, 0, 0, 8⟩,
     metadata := [("backup_type", "full"), ("backup_id", "idB"), ("source_db", "mydb"),
                  ("start_time", "2024-06-01T00:00:00Z"), ("is_compressed", "true")] }]

/-- The catalog entry rebuilt from `c10State`. -/
def c10Rec : BackupResult :=
  { ID := "idB", typ := "full", startTime := ⟨2024, 6, 1, 0, 0, 0⟩,
    endTime := ⟨2024, 6, 1, 0, 0, 8⟩, size := 3, fileCount := 0,
    storagePath := "sqlite/mydb/full/20240601-000000-idB.db",
    isCompressed := true, success := true, errorMessage := "" }

/-- Listing with the empty string lists every stored object. -/
theorem provList_empty (st : StorageState) : provList st "" = st := by
  unfold provList
  apply List.filter_eq_self.mpr
  intro a _
  simp [strHasPre, List.isPrefixOf]

/-- Membership characterization of the suffix-based catalog listing. -/
theorem mem_incListBackups {st : StorageState} {r : BackupResult} :
    r ∈ incListBackups st ↔
      ∃ f ∈ st, isBackupFile f.path = true ∧
        ∃ info, provGetInfo st f.path = some info ∧ r = incRec f.path info := by
  unfold incListBackups
  rw [provList_empty, List.mem_filterMap]
  constructor
  · rintro ⟨f, hf, hg⟩
    refine ⟨f, hf, ?_⟩
    split at hg
    case isTrue hb =>
      cases hi : provGetInfo st f.path with
      | none => rw [hi] at hg; exact absurd hg (by simp)
      | some info =>
        rw [hi] at hg
        simp only [Option.some.injEq] at hg
        exact ⟨hb, info, rfl, hg.symm⟩
    case isFalse hb => exact absurd hg (by simp)
  · rintro ⟨f, hf, hb, info, hi, hr⟩
    refine ⟨f, hf, ?_⟩
    rw [if_pos hb, hi, hr]

/-- The pipe-based full listing is the same function as the incremental
listing. -/
theorem fullListBackupsPipe_eq_inc (st : StorageState) :
    fullListBackupsPipe st = incListBackups st := rfl

/-- Claim C3 (code bug).  After `LocalProvider.Store` writes the sidecar file
for the metadata map `{"backup_id": "abc123"}`, `loadMetadata` — used by both
`GetInfo` and `List` — recovers the empty map, not the stored map: the
`Fscanf` format `"%s=%s\n"` can never match a `key=value` line, because the
first `%s` consumes the whole line as one token. -/
theorem c3_sidecar_metadata_not_recovered :
    saveMetadataContent [("backup_id", "abc123")] = "backup_id=abc123\n" ∧
    loadMetadataModel (saveMetadataContent [("backup_id", "abc123")]) = [] := by
  exact ⟨by decide, by decide⟩

/-- Claim C4 (code bug).  When the dump producer fails mid-stream during the
pipe-based `FullBackup.Backup`, the call itself errors, but `Store` has
already persisted the partial object together with the complete metadata map
(the goroutine closes the pipe with `Close`, not `CloseWithError`, so the
consumer sees a clean end-of-stream), and `ListBackups` afterwards
reconstructs it as a record with `Success = true`. -/
theorem c4_failed_backup_listed_as_success :
    exceptIsOk (fullBackupPipe c4Env [] c4Opts).result = false ∧
    (fullListBackupsPipe (fullBackupPipe c4Env [] c4Opts).state).map
      (fun r => (r.ID, r.success)) = [("id4", true)] := by
  exact ⟨by decide, by decide⟩

/-- Claim C5 (confirmed).  The pipe-based `FullBackup.Backup` returns an error
whenever either side of the transfer fails: if `Provider.Store` errors, or the
dump goroutine reports an error on the completion channel, the call errors
even when the other side succeeded. -/
theorem c5_pipe_error_propagation (env : RunEnv) (st : StorageState) (opts : BackupOptions)
    (h : exceptIsOk env.storeOutcome = false ∨ exceptIsOk env.conn.dumpOutcome = false) :
    exceptIsOk (fullBackupPipe env st opts).result = false := by
  unfold fullBackupPipe
  cases hl : env.conn.listTablesResult with
  | error e => simp [exceptIsOk]
  | ok T =>
    cases hd : env.conn.dbInfoResult with
    | error e => simp [exceptIsOk]
    | ok dbInfo =>
      cases hs : env.storeOutcome with
      | error e => simp [exceptIsOk]
      | ok u =>
        cases hp : env.conn.dumpOutcome with
        | error e => simp [exceptIsOk]
        | ok v =>
          rw [hs, hp] at h
          simp [exceptIsOk] at h

/-- Witness for claim C5: a run whose `Store` fails while the dump succeeds
errors as a whole. -/
theorem c5_pipe_error_propagation_witness :
    exceptIsOk (fullBackupPipe c5Env [] c5Opts).result = false :=
  c5_pipe_error_propagation c5Env [] c5Opts (Or.inl (by decide))

/-- Claim C10 (confirmed).  Every record returned by the suffix-based
`ListBackups` (incremental variant and pipe-based full variant) has
`Success = true` and `EndTime` equal to the stored object's `LastModified`,
regardless of the stored metadata: the reconstructed catalog can never
represent a failed backup attempt. -/
theorem c10_listing_always_success (st : StorageState) (r : BackupResult) :
    (r ∈ incListBackups st → r.success = true ∧
      (provGetInfo st r.storagePath).map (fun f => f.lastModified) = some r.endTime) ∧
    (r ∈ fullListBackupsPipe st → r.success = true ∧
      (provGetInfo st r.storagePath).map (fun f => f.lastModified) = some r.endTime) := by
  have main : r ∈ incListBackups st → r.success = true ∧
      (provGetInfo st r.storagePath).map (fun f => f.lastModified) = some r.endTime := by
    intro h
    rw [mem_incListBackups] at h
    obtain ⟨f, hf, hb, info, hi, hr⟩ := h
    subst hr
    refine ⟨rfl, ?_⟩
    show (provGetInfo st f.path).map (fun f => f.lastModified) = some info.lastModified
    rw [hi]
    rfl
  exact ⟨main, by rw [fullListBackupsPipe_eq_inc]; exact main⟩

/-- Witness for claim C10: the record rebuilt from `c10State` is marked
successful and carries the object's modification time. -/
theorem c10_listing_always_success_witness :
    c10Rec.success = true ∧
    (provGetInfo c10State c10Rec.storagePath).map (fun f => f.lastModified) = some c10Rec.endTime :=
  (c10_listing_always_success c10State c10Rec).1 (by decide)

/-- Counterexample to claim C7: an object whose metadata map is entirely
missing (no `backup_id` at all) is not skipped by the incremental
`ListBackups`; it surfaces as a catalog entry with an empty id. -/
theorem c7_missing_metadata_still_listed :
    c7State.all (fun f => f.metadata.isEmpty) = true ∧
    (incListBackups c7State).map (fun r => r.ID) = [""] :=
  ⟨by decide, by decide⟩

/-- Claim C7 as amended.  The incremental `ListBackups` never errors and
filters exactly by path suffix: every returned record's path has the backup
suffix, and every stored object with the backup suffix yields a record — even
when its metadata is missing or unparsable (such fields become Go zero
values).  Only the buffered `FullBackup.ListBackups` additionally drops
records whose `backup_id` metadata is empty. -/
theorem c7_listing_filters_by_suffix_only (st : StorageState) :
    (∀ r ∈ incListBackups st, isBackupFile r.storagePath = true) ∧
    (∀ f ∈ st, isBackupFile f.path = true →
      ((incListBackups st).map (fun r => r.storagePath)).contains f.path = true) ∧
    (∀ dbt : String, ∀ r ∈ fullListBackupsBuf dbt st, ¬ r.ID = "") := by
  refine ⟨?_, ?_, ?_⟩
  · intro r hr
    rw [mem_incListBackups] at hr
    obtain ⟨f, hf, hb, info, hi, hr⟩ := hr
    subst hr
    exact hb
  · intro f hf hb
    have hsome : (provGetInfo st f.path).isSome = true := by
      unfold provGetInfo
      exact List.find?_isSome.mpr ⟨f, hf, by simp⟩
    obtain ⟨info, hi⟩ := Option.isSome_iff_exists.mp hsome
    have hmem : incRec f.path info ∈ incListBackups st :=
      mem_incListBackups.mpr ⟨f, hf, hb, info, hi, rfl⟩
    exact List.elem_iff.mpr (List.mem_map.mpr ⟨incRec f.path info, hmem, rfl⟩)
  · intro dbt r hr
    unfold fullListBackupsBuf at hr
    rw [List.mem_filterMap] at hr
    obtain ⟨f, hf, hg⟩ := hr
    split at hg
    · exact absurd hg (by simp)
    · split at hg
      · exact absurd hg (by simp)
      · rcases hgi : provGetInfo st f.path with _ | info
        · rw [hgi] at hg
          exact absurd hg (by simp)
        · rw [hgi] at hg
          have hg1 : (if (!(metaGet info.metadata "backup_type" == "full")) = true then (none : Option BackupResult)
              else if (metaGet info.metadata "backup_id" == "") = true then none
              else some (bufRec f.path info)) = some r := hg
          by_cases hbt : (!(metaGet info.metadata "backup_type" == "full")) = true
          · rw [if_pos hbt] at hg1
            exact absurd hg1 (by simp)
          · rw [if_neg hbt] at hg1
            by_cases hid : (metaGet info.metadata "backup_id" == "") = true
            · rw [if_pos hid] at hg1
              exact absurd hg1 (by simp)
            · rw [if_neg hid] at hg1
              have hg2 : bufRec f.path info = r := by simpa using hg1
              subst hg2
              intro hcontra
              apply hid
              show (metaGet info.metadata "backup_id" == "") = true
              rw [show (bufRec f.path info).ID = metaGet info.metadata "backup_id" from rfl] at hcontra
              rw [hcontra]
              rfl

/-- Witness for claim C7: the suffix-matching object of `c7State` is listed. -/
theorem c7_listing_filters_by_suffix_only_witness :
    ((incListBackups c7State).map (fun r => r.storagePath)).contains "x.db" = true :=
  (c7_listing_filters_by_suffix_only c7State).2.1
    ⟨"x.db", 5, ⟨2024, 7, 1, 0, 0, 0⟩, "", false, []⟩ (by decide) (by decide)

/-- The two-pass `filterTables` computes exactly the spec's single-pass
filter. -/
theorem filterTables_eq_spec (T incl excl : List String) :
    filterTables T incl excl = specFilterTables T incl excl := by
  unfold filterTables specFilterTables
  rcases incl with _ | ⟨i, is⟩
  · rcases excl with _ | ⟨e, es⟩
    · simp
    · have hc : ¬(([] : List String).length = 0 ∧ (e :: es).length = 0) := by simp
      have hs : ¬(([] : List String) = [] ∧ (e :: es) = []) := by simp
      simp [hc, hs]
  · rcases excl with _ | ⟨e, es⟩
    · have hc : ¬((i :: is).length = 0 ∧ ([] : List String).length = 0) := by simp
      have hs : ¬((i :: is) = [] ∧ ([] : List String) = []) := by simp
      simp [hc, hs]
    · have hc : ¬((i :: is).length = 0 ∧ (e :: es).length = 0) := by simp
      have hs : ¬((i :: is) = [] ∧ (e :: es) = []) := by simp
      simp [hc, hs, List.filter_filter]
      apply List.filter_congr
      intro x _
      exact Bool.and_comm _ _

/-- Claim C8 (confirmed).  In a pipe-based full backup run whose `ListTables`
and `GetInfo` calls succeed, the one and only table list handed to
`Connector.Backup` is `filterTables` of the caller's list, and `filterTables`
equals the spec's single-pass filter: all tables when both filters are empty,
otherwise the tables in `include` (when non-empty) and not in `exclude`, in
their original order. -/
theorem c8_tables_handed_once (env : RunEnv) (st : StorageState) (opts : BackupOptions)
    (T : List String) (h : env.conn.listTablesResult = Except.ok T)
    (D : List (String × String)) (hd : env.conn.dbInfoResult = Except.ok D) :
    (fullBackupPipe env st opts).handed =
      [filterTables T opts.includeTables opts.excludeTables] ∧
    filterTables T opts.includeTables opts.excludeTables =
      specFilterTables T opts.includeTables opts.excludeTables := by
  refine ⟨?_, filterTables_eq_spec T _ _⟩
  simp only [fullBackupPipe, h, hd]
  split
  · rfl
  · split
    · rfl
    · split <;> rfl

/-- Witness for claim C8: with tables `a b c`, include `a c` and exclude `c`,
the dump is handed exactly `a`. -/
theorem c8_tables_handed_once_witness :
    (fullBackupPipe c8Env [] c8Opts).handed =
      [filterTables ["a", "b", "c"] c8Opts.includeTables c8Opts.excludeTables] ∧
    filterTables ["a", "b", "c"] c8Opts.includeTables c8Opts.excludeTables =
      specFilterTables ["a", "b", "c"] c8Opts.includeTables c8Opts.excludeTables :=
  c8_tables_handed_once c8Env [] c8Opts ["a", "b", "c"] rfl
    [("name", "test")] rfl

/-- `t.After(u)` tests strict chronological order. -/
theorem after_iff (t u : GoTime) : GoTime.after t u = true ↔ u.key < t.key := by
  simp [GoTime.after, Nat.blt_eq]

/-- When the catalog holds no entry of type `full`, the selection loop ends
with no candidate. -/
theorem foldLatest_none (l : List BackupResult) (h : ∀ r ∈ l, r.typ ≠ "full") :
    l.foldl latestStep none = none := by
  induction l with
  | nil => rfl
  | cons x xs ih =>
    have hx : (x.typ == "full") = false := by
      have hne := h x (List.mem_cons_self x xs)
      simpa using hne
    have hstep : latestStep none x = none := by simp [latestStep, hx]
    rw [List.foldl_cons, hstep]
    exact ih (fun r hr => h r (List.mem_cons_of_mem x hr))

/-- The selection loop's candidate comes from the scanned list (and is of type
`full`) unless it is the initial accumulator. -/
theorem foldLatest_mem (l : List BackupResult) :
    ∀ acc b, l.foldl latestStep acc = some b → (b ∈ l ∧ b.typ = "full") ∨ acc = some b := by
  induction l with
  | nil => intro acc b h; exact Or.inr h
  | cons x xs ih =>
    intro acc b h
    rw [List.foldl_cons] at h
    rcases ih (latestStep acc x) b h with hl | hacc
    · exact Or.inl ⟨List.mem_cons_of_mem x hl.1, hl.2⟩
    · by_cases hx : (x.typ == "full") = true
      · have hxt : x.typ = "full" := by simpa using hx
        cases acc with
        | none =>
          have : some x = some b := by rw [← hacc]; simp [latestStep, hx]
          have hb : x = b := by injection this
          exact Or.inl ⟨by rw [← hb]; exact List.mem_cons_self x xs, by rw [← hb]; exact hxt⟩
        | some a =>
          by_cases haf : GoTime.after x.startTime a.startTime = true
          · have : some x = some b := by rw [← hacc]; simp [latestStep, hx, haf]
            have hb : x = b := by injection this
            exact Or.inl ⟨by rw [← hb]; exact List.mem_cons_self x xs, by rw [← hb]; exact hxt⟩
          · have : some a = some b := by
              rw [← hacc]
              simp [latestStep, hx, haf]
            exact Or.inr this
      · have hstep : latestStep acc x = acc := by simp [latestStep, hx]
        rw [hstep] at hacc
        exact Or.inr hacc

/-- The selection loop's candidate is never strictly earlier than any `full`
entry of the scanned list, nor than the initial accumulator. -/
theorem foldLatest_max (l : List BackupResult) :
    ∀ acc b, l.foldl latestStep acc = some b →
      (∀ r ∈ l, r.typ = "full" → ¬ GoTime.lt b.startTime r.startTime) ∧
      (∀ a, acc = some a → ¬ GoTime.lt b.startTime a.startTime) := by
  induction l with
  | nil =>
    intro acc b h
    constructor
    · intro r hr
      exact absurd hr (List.not_mem_nil r)
    · intro a ha
      have hacc : acc = some b := h
      rw [hacc] at ha
      have hba : b = a := by injection ha
      rw [GoTime.lt, hba]
      exact Nat.lt_irrefl _
  | cons x xs ih =>
    intro acc b h
    rw [List.foldl_cons] at h
    obtain ⟨ihl, ihacc⟩ := ih (latestStep acc x) b h
    constructor
    · intro r hr hrt
      rcases List.mem_cons.mp hr with hrx | hrxs
      · subst hrx
        have hx : (r.typ == "full") = true := by simp [hrt]
        cases hacc : acc with
        | none =>
          rw [hacc] at ihacc
          have hstep : latestStep none r = some r := by simp [latestStep, hx]
          exact ihacc r hstep
        | some a =>
          rw [hacc] at ihacc
          by_cases haf : GoTime.after r.startTime a.startTime = true
          · have hstep : latestStep (some a) r = some r := by simp [latestStep, hx, haf]
            exact ihacc r hstep
          · have hstep : latestStep (some a) r = some a := by simp [latestStep, hx, haf]
            have hba := ihacc a hstep
            have hra : ¬ a.startTime.key < r.startTime.key := fun hc => haf ((after_iff _ _).mpr hc)
            simp only [GoTime.lt] at hba ⊢
            omega
      · exact ihl r hrxs hrt
    · intro a ha
      subst ha
      by_cases hx : (x.typ == "full") = true
      · by_cases haf : GoTime.after x.startTime a.startTime = true
        · have hstep : latestStep (some a) x = some x := by simp [latestStep, hx, haf]
          have hbx := ihacc x hstep
          have hxa : a.startTime.key < x.startTime.key := (after_iff _ _).mp haf
          simp only [GoTime.lt] at hbx ⊢
          omega
        · have hstep : latestStep (some a) x = some a := by simp [latestStep, hx, haf]
          exact ihacc a hstep
      · have hstep : latestStep (some a) x = some a := by simp [latestStep, hx]
        exact ihacc a hstep

/-- A successful base resolution returns a catalog entry of type `full` whose
`StartTime` no `full` catalog entry strictly exceeds. -/
theorem findLatest_ok_spec (st : StorageState) (dbName : String) (b : BackupResult)
    (h : findLatestFullBackup st dbName = Except.ok b) :
    b ∈ incListBackups st ∧ b.typ = "full" ∧
      ∀ r ∈ incListBackups st, r.typ = "full" → ¬ GoTime.lt b.startTime r.startTime := by
  unfold findLatestFullBackup at h
  cases hf : (incListBackups st).foldl latestStep none with
  | none =>
    rw [hf] at h
    exact absurd h (by simp)
  | some l0 =>
    rw [hf] at h
    have hbl : l0 = b := by
      have : Except.ok (ε := String) l0 = Except.ok b := h
      injection this
    subst hbl
    rcases foldLatest_mem (incListBackups st) none l0 hf with hmem | habs
    · exact ⟨hmem.1, hmem.2, (foldLatest_max (incListBackups st) none l0 hf).1⟩
    · exact absurd habs (by simp)

/-- When the catalog holds no entry of type `full`, base resolution fails with
the `no full backup found` error. -/
theorem findLatest_none (st : StorageState) (dbName : String)
    (h : ∀ r ∈ incListBackups st, r.typ ≠ "full") :
    findLatestFullBackup st dbName =
      Except.error ("no full backup found for database " ++ dbName) := by
  unfold findLatestFullBackup
  rw [foldLatest_none (incListBackups st) h]

/-- Counterexample to claim C2: with a catalog whose only Full backup belongs
to database `other` — so no Full backup exists for the source database
`test` — `IncrementalBackup.Backup` does not fail before the transfer:
`Provider.Store` is called (and the run even succeeds). -/
theorem c2_store_called_without_base_for_source :
    c2State.all (fun f => !(metaGet f.metadata "source_db" == "test")) = true ∧
    c2Opts.sourceDB = "test" ∧
    (incBackup c2Env c2State c2Opts).storeCalls.length = 1 ∧
    exceptIsOk (incBackup c2Env c2State c2Opts).result = true :=
  ⟨by decide, rfl, by decide, by decide⟩

/-- Claim C2 as amended.  When the catalog contains no Full backup at all (for
any database), `IncrementalBackup.Backup` fails before any transfer:
`Provider.Store` is never called and the object store is unchanged. -/
theorem c2_no_full_blocks_backup (env : RunEnv) (st : StorageState) (opts : BackupOptions)
    (h : ∀ r ∈ incListBackups st, r.typ ≠ "full") :
    exceptIsOk (incBackup env st opts).result = false ∧
    (incBackup env st opts).storeCalls = [] ∧
    (incBackup env st opts).state = st := by
  have hf := findLatest_none st opts.sourceDB h
  unfold incBackup
  rw [hf]
  exact ⟨rfl, rfl, rfl⟩

/-- Witness for claim C2 as amended: on an empty object store the incremental
backup fails with no store call. -/
theorem c2_no_full_blocks_backup_witness :
    exceptIsOk (incBackup c2Env [] c2Opts).result = false ∧
    (incBackup c2Env [] c2Opts).storeCalls = [] ∧
    (incBackup c2Env [] c2Opts).state = [] :=
  c2_no_full_blocks_backup c2Env [] c2Opts (by decide)

/-- `GetInfo` right after `Store` returns the freshly stored object. -/
theorem provGetInfo_provStore (st : StorageState) (p : String) (size : Int)
    (md : List (String × String)) (mt : GoTime) :
    provGetInfo (provStore st p size md mt) p =
      some { path := p, size := size, lastModified := mt, metadata := md } := by
  unfold provGetInfo provStore
  rw [List.find?_append]
  have hleft : (st.filter (fun f => !(f.path == p))).find? (fun f => f.path == p) = none := by
    rw [List.find?_eq_none]
    intro x hx
    have := (List.mem_filter.mp hx).2
    simp at this
    simp [this]
  rw [hleft]
  simp

/-- Counterexample to claim C1: with a catalog whose only Full backup belongs
to database `other`, an incremental backup of database `test` succeeds and
records that foreign Full backup as its base: a Full backup of another
database is selected. -/
theorem c1_foreign_base_selected :
    c1State.all (fun f => !(metaGet f.metadata "source_db" == "test")) = true ∧
    c1Opts.sourceDB = "test" ∧
    findLatestFullBackup c1State c1Opts.sourceDB = Except.ok c1Base ∧
    metaGet (c1State.headD { path := "", size := 0, lastModified := ⟨1, 1, 1, 0, 0, 0⟩ }).metadata
      "source_db" = "other" ∧
    exceptIsOk (incBackup c1Env c1State c1Opts).result = true ∧
    ((incBackup c1Env c1State c1Opts).state.map
      (fun f => metaGet f.metadata "base_backup")).contains "aaa" = true :=
  ⟨by decide, rfl, rfl, by decide, by decide, by decide⟩

/-- Claim C1 as amended.  Base resolution selects, from the catalog entries of
kind Full for ANY database (the source database is not consulted), an entry
with the latest `StartTime`, and on a successful run the stored object's
`base_backup` metadata equals that entry's id. -/
theorem c1_base_selection_amended (env : RunEnv) (st : StorageState) (opts : BackupOptions)
    (base : BackupResult) (h : findLatestFullBackup st opts.sourceDB = Except.ok base) :
    base ∈ incListBackups st ∧ base.typ = "full" ∧
    (∀ r ∈ incListBackups st, r.typ = "full" → ¬ GoTime.lt base.startTime r.startTime) ∧
    (∀ res, (incBackup env st opts).result = Except.ok res →
      (provGetInfo (incBackup env st opts).state res.storagePath).map
        (fun f => metaGet f.metadata "base_backup") = some base.ID) := by
  obtain ⟨h1, h2, h3⟩ := findLatest_ok_spec st opts.sourceDB base h
  refine ⟨h1, h2, h3, ?_⟩
  intro res hres
  rcases hl : env.conn.listTablesResult with e | T
  · simp only [incBackup, h, hl] at hres
    exact absurd hres (by simp)
  rcases hs : env.storeOutcome with e | u
  · simp only [incBackup, h, hl, hs] at hres
    exact absurd hres (by simp)
  rcases hp : env.conn.dumpOutcome with e | v
  · simp only [incBackup, h, hl, hs, hp] at hres
    exact absurd hres (by simp)
  simp only [incBackup, h, hl, hs, hp, provGetInfo_provStore, Except.ok.injEq] at hres
  subst hres
  simp only [incBackup, h, hl, hs, hp, provGetInfo_provStore, Option.map_some']
  rfl

/-- Witness for claim C1 as amended, on the concrete C1 run. -/
theorem c1_base_selection_amended_witness :
    c1Base ∈ incListBackups c1State ∧ c1Base.typ = "full" ∧
    (provGetInfo (incBackup c1Env c1State c1Opts).state c1Res.storagePath).map
      (fun f => metaGet f.metadata "base_backup") = some c1Base.ID := by
  have hmain := c1_base_selection_amended c1Env c1State c1Opts c1Base rfl
  exact ⟨hmain.1, hmain.2.1, hmain.2.2.2 c1Res rfl⟩

/-- Removing the objects at one path does not change which object `GetInfo`
finds at any other path. -/
theorem find?_path_filter (st : StorageState) (p q : String) (hne : ¬ p = q) :
    (st.filter (fun f => !(f.path == q))).find? (fun f => f.path == p) =
      st.find? (fun f => f.path == p) := by
  induction st with
  | nil => rfl
  | cons f fs ih =>
    by_cases hfq : (f.path == q) = true
    · have hpath : f.path = q := by simpa using hfq
      have hfp : (f.path == p) = false := by
        rw [hpath]
        exact beq_eq_false_iff_ne.mpr (fun hqp => hne hqp.symm)
      simp [List.filter_cons, List.find?_cons, hfq, hfp, ih]
    · have hnfq : (!(f.path == q)) = true := by simp [hfq]
      by_cases hfp : (f.path == p) = true
      · simp [List.filter_cons, List.find?_cons, hnfq, hfp]
      · simp [List.filter_cons, List.find?_cons, hnfq, hfp, ih]

/-- Claim C9 (confirmed).  For a backup id resolved by `GetBackup`, and under
the data model's invariant that ids are unique in the catalog, a successful
`DeleteBackup(id)` removes exactly that backup's storage object (resolved to
its `StoragePath` and delegated to `Provider.Delete`), after which
`ListBackups` contains no record with that id and `GetBackup(id)` fails with
the not-found error. -/
theorem c9_delete_removes_and_hides (st : StorageState) (id : String) (b : BackupResult)
    (hget : incGetBackup st id = Except.ok b)
    (huniq : ∀ r ∈ incListBackups st, r.ID = id → r.storagePath = b.storagePath) :
    incDeleteBackup st id =
      Except.ok (st.filter (fun f => !(f.path == b.storagePath))) ∧
    (∀ r ∈ incListBackups (st.filter (fun f => !(f.path == b.storagePath))), r.ID ≠ id) ∧
    incGetBackup (st.filter (fun f => !(f.path == b.storagePath))) id =
      Except.error ("backup " ++ id ++ " not found") := by
  have hfind : (incListBackups st).find? (fun r => r.ID == id) = some b := by
    unfold incGetBackup at hget
    cases hf : (incListBackups st).find? (fun r => r.ID == id) with
    | none =>
      rw [hf] at hget
      exact absurd hget (by simp)
    | some r0 =>
      rw [hf] at hget
      have : Except.ok (ε := String) r0 = Except.ok b := hget
      rw [show r0 = b from by injection this]
  have hbmem : b ∈ incListBackups st := List.mem_of_find?_eq_some hfind
  obtain ⟨f0, hf0, hb0, info0, hi0, hrec⟩ := mem_incListBackups.mp hbmem
  have hpath : b.storagePath = f0.path := by
    rw [hrec]
    rfl
  have hany : st.any (fun f => f.path == b.storagePath) = true := by
    apply List.any_eq_true.mpr
    refine ⟨f0, hf0, ?_⟩
    rw [hpath]
    simp
  have hdel : provDelete st b.storagePath =
      Except.ok (st.filter (fun f => !(f.path == b.storagePath))) := by
    unfold provDelete
    rw [if_pos hany]
  have hc2 : ∀ r ∈ incListBackups (st.filter (fun f => !(f.path == b.storagePath))),
      r.ID ≠ id := by
    intro r hr hid
    obtain ⟨g, hg, hgb, infog, hig, hrg⟩ := mem_incListBackups.mp hr
    obtain ⟨hgmem, hgkeep⟩ := List.mem_filter.mp hg
    have hgp : ¬ g.path = b.storagePath := by simpa using hgkeep
    have hsame : provGetInfo (st.filter (fun f => !(f.path == b.storagePath))) g.path =
        provGetInfo st g.path := by
      unfold provGetInfo
      exact find?_path_filter st g.path b.storagePath hgp
    have hrmem : r ∈ incListBackups st := by
      apply mem_incListBackups.mpr
      exact ⟨g, hgmem, hgb, infog, by rw [← hsame]; exact hig, hrg⟩
    have hups := huniq r hrmem hid
    rw [hrg] at hups
    exact hgp hups
  refine ⟨?_, hc2, ?_⟩
  · simp only [incDeleteBackup, hget, hdel]
  · unfold incGetBackup
    have hnone : (incListBackups
        (st.filter (fun f => !(f.path == b.storagePath)))).find? (fun r => r.ID == id) =
          none := by
      rw [List.find?_eq_none]
      intro r hr
      simpa using hc2 r hr
    rw [hnone]

/-- Witness for claim C9 on the one-backup store `c9State`. -/
theorem c9_delete_removes_and_hides_witness :
    incDeleteBackup c9State "idA" =
      Except.ok (c9State.filter (fun f => !(f.path == c9Rec.storagePath))) ∧
    incGetBackup (c9State.filter (fun f => !(f.path == c9Rec.storagePath))) "idA" =
      Except.error ("backup " ++ "idA" ++ " not found") := by
  have h := c9_delete_removes_and_hides c9State "idA" c9Rec rfl (by decide)
  exact ⟨h.1, h.2.2⟩

/-- Strings are equal when their character lists are. -/
theorem strExt (a b : String) (h : a.data = b.data) : a = b := by
  cases a
  cases b
  exact congrArg String.mk h

/-- Appending a non-empty string never yields the empty string. -/
theorem str_append_ne_empty (a b : String) (hb : b ≠ "") : a ++ b ≠ "" := by
  intro hcontra
  have hdata : a.data ++ b.data = [] := by
    have hc := congrArg String.data hcontra
    simpa [String.data_append] using hc
  have hb2 : b.data = [] := (List.append_eq_nil.mp hdata).2
  exact hb (strExt b "" (by simpa using hb2))

/-- Larger decimal digits print as larger characters. -/
theorem digitChar_lt : ∀ a < 10, ∀ b < 10, a < b → Nat.digitChar a < Nat.digitChar b := by
  decide

/-- A common prefix preserves strict lexicographic order. -/
theorem lex_append_left (l r1 r2 : List Char) (h : r1 < r2) : (l ++ r1) < (l ++ r2) := by
  induction l with
  | nil => exact h
  | cons c cs ih => exact List.Lex.cons ih

/-- Equal-length blocks decide strict lexicographic order regardless of what
follows them. -/
theorem lex_append_of_lt (l1 l2 : List Char) (r1 r2 : List Char)
    (hlen : l1.length = l2.length) (h : l1 < l2) : (l1 ++ r1) < (l2 ++ r2) := by
  induction h generalizing r1 r2 with
  | nil => simp at hlen
  | rel hr => exact List.Lex.rel hr
  | cons hlt ih => exact List.Lex.cons (ih r1 r2 (by simpa using hlen))

/-- `padDigits` always prints its requested width. -/
theorem padDigits_length (w : Nat) : ∀ n, (padDigits w n).length = w := by
  induction w with
  | zero => intro n; rfl
  | succ w ih => intro n; simp [padDigits, ih]

/-- Fixed-width zero-padded printing is strictly monotone below its
capacity. -/
theorem padDigits_lt (w : Nat) : ∀ n1 n2, n1 < n2 → n2 < 10 ^ w →
    padDigits w n1 < padDigits w n2 := by
  induction w with
  | zero =>
    intro n1 n2 h12 h2
    omega
  | succ w ih =>
    intro n1 n2 h12 h2
    have hpow : 0 < 10 ^ w := Nat.pos_pow_of_pos w (by omega)
    have hsucc : 10 ^ (w + 1) = 10 ^ w * 10 := by rw [Nat.pow_succ]
    have hd2 : n2 / 10 ^ w < 10 := by
      rw [Nat.div_lt_iff_lt_mul hpow]
      omega
    have hd1 : n1 / 10 ^ w < 10 := by
      rw [Nat.div_lt_iff_lt_mul hpow]
      omega
    have hle : n1 / 10 ^ w ≤ n2 / 10 ^ w := Nat.div_le_div_right (Nat.le_of_lt h12)
    rcases Nat.lt_or_ge (n1 / 10 ^ w) (n2 / 10 ^ w) with hlt | hge
    · simp only [padDigits]
      exact List.Lex.rel (digitChar_lt _ hd1 _ hd2 hlt)
    · have heq : n1 / 10 ^ w = n2 / 10 ^ w := Nat.le_antisymm hle hge
      have hm1 := Nat.div_add_mod n1 (10 ^ w)
      have hm2 := Nat.div_add_mod n2 (10 ^ w)
      have hmod2 : n2 % 10 ^ w < 10 ^ w := Nat.mod_lt n2 hpow
      rw [← heq] at hm2
      have hmodlt : n1 % 10 ^ w < n2 % 10 ^ w := by omega
      simp only [padDigits, heq]
      exact List.Lex.cons (ih (n1 % 10 ^ w) (n2 % 10 ^ w) hmodlt hmod2)

/-- A chronologically earlier valid timestamp has a smaller date block, or the
same date block and a smaller time-of-day block, within the printing
capacities. -/
theorem gotime_lt_split (t u : GoTime) (hv1 : validTime t) (hv2 : validTime u)
    (h : GoTime.lt t u) :
    (t.ymdKey < u.ymdKey ∧ u.ymdKey < 10 ^ 8) ∨
    (t.ymdKey = u.ymdKey ∧ t.hmsKey < u.hmsKey ∧ u.hmsKey < 10 ^ 6) := by
  unfold validTime at hv1 hv2
  unfold GoTime.lt GoTime.key GoTime.ymdKey GoTime.hmsKey at *
  omega

/-- The storage path built by the strategies equals the spec's path formula,
for clean non-empty components. -/
theorem buildPath_eq_spec (e db k : String) (t : GoTime) (id : String) (c : Bool)
    (he : e ≠ "") (hdb : db ≠ "") (hk : k ≠ "") (_hid : id ≠ "") :
    buildBackupPath e db k t id c = specStoragePath e db k t id c := by
  have hf : formatCompact t ++ "-" ++ id ++ ".db" ≠ "" :=
    str_append_ne_empty _ _ (by decide)
  have he2 : (e == "") = false := beq_eq_false_iff_ne.mpr he
  have hdb2 : (db == "") = false := beq_eq_false_iff_ne.mpr hdb
  have hk2 : (k == "") = false := beq_eq_false_iff_ne.mpr hk
  have hf2 : ((formatCompact t ++ "-" ++ id ++ ".db") == "") = false :=
    beq_eq_false_iff_ne.mpr hf
  unfold buildBackupPath goJoin
  simp only [List.filter_cons, he2, hdb2, hk2, hf2, Bool.not_false, if_true, List.filter_nil,
    joinSlash]
  cases c
  · apply strExt
    simp [specStoragePath, String.data_append, List.append_assoc]
  · apply strExt
    simp [specStoragePath, String.data_append, List.append_assoc]

/-- The data of the spec path formula, split into the common group prefix and
the timestamp blocks. -/
theorem specPath_data_shape (e db k : String) (t : GoTime) (id : String) (c : Bool) :
    (specStoragePath e db k t id c).data =
      (e.data ++ ('/' :: (db.data ++ ('/' :: (k.data ++ ['/']))))) ++
        (padDigits 8 t.ymdKey ++
          ('-' :: (padDigits 6 t.hmsKey ++
            ('-' :: (id.data ++ (if c then ".db.gz".data else ".db".data)))))) := by
  cases c <;>
    simp [specStoragePath, formatCompact, String.data_append, List.append_assoc]

/-- Within one `(database, kind)` group, a strictly earlier start time yields
a lexicographically smaller storage path, whatever the ids and compression
settings. -/
theorem buildPath_lt_of_time_lt (e db k id1 id2 : String) (t1 t2 : GoTime) (c1 c2 : Bool)
    (he : e ≠ "") (hdb : db ≠ "") (hk : k ≠ "") (h1 : id1 ≠ "") (h2 : id2 ≠ "")
    (hv1 : validTime t1) (hv2 : validTime t2) (hlt : GoTime.lt t1 t2) :
    buildBackupPath e db k t1 id1 c1 < buildBackupPath e db k t2 id2 c2 := by
  rw [buildPath_eq_spec e db k t1 id1 c1 he hdb hk h1,
    buildPath_eq_spec e db k t2 id2 c2 he hdb hk h2]
  rw [String.lt_iff_toList_lt]
  show (specStoragePath e db k t1 id1 c1).data < (specStoragePath e db k t2 id2 c2).data
  rw [specPath_data_shape, specPath_data_shape]
  apply lex_append_left
  rcases gotime_lt_split t1 t2 hv1 hv2 hlt with ⟨hy, hyb⟩ | ⟨hyeq, hh, hhb⟩
  · exact lex_append_of_lt _ _ _ _
      (by rw [padDigits_length, padDigits_length]) (padDigits_lt 8 _ _ hy hyb)
  · rw [hyeq]
    apply lex_append_left
    apply List.Lex.cons
    exact lex_append_of_lt _ _ _ _
      (by rw [padDigits_length, padDigits_length]) (padDigits_lt 6 _ _ hh hhb)

/-- Claim C6 (confirmed).  For clean non-empty components and valid times, the
storage path built for a backup equals the spec's deterministic formula
`{engineType}/{sourceDbName}/{kind}/{startTime:20060102-150405}-{backupId}.db`
with `.gz` appended iff compression is on; and within one `(database, kind)`
group a strictly earlier start time yields a lexicographically smaller path,
whatever the ids and compression settings. -/
theorem c6_storage_path_convention (e db k id1 id2 : String) (t1 t2 : GoTime) (c1 c2 : Bool)
    (he : cleanComp e) (hdb : cleanComp db) (hk : cleanComp k)
    (hi1 : cleanComp id1) (hi2 : cleanComp id2)
    (hv1 : validTime t1) (hv2 : validTime t2) :
    buildBackupPath e db k t1 id1 c1 = specStoragePath e db k t1 id1 c1 ∧
    (GoTime.lt t1 t2 →
      buildBackupPath e db k t1 id1 c1 < buildBackupPath e db k t2 id2 c2) :=
  ⟨buildPath_eq_spec e db k t1 id1 c1 he.1 hdb.1 hk.1 hi1.1,
   fun hlt =>
     buildPath_lt_of_time_lt e db k id1 id2 t1 t2 c1 c2
       he.1 hdb.1 hk.1 hi1.1 hi2.1 hv1 hv2 hlt⟩

/-- Witness for claim C6 on two concrete backups one second apart. -/
theorem c6_storage_path_convention_witness :
    buildBackupPath "sqlite" "mydb" "full" ⟨2024, 1, 2, 3, 4, 5⟩ "aaa" true =
      specStoragePath "sqlite" "mydb" "full" ⟨2024, 1, 2, 3, 4, 5⟩ "aaa" true ∧
    buildBackupPath "sqlite" "mydb" "full" ⟨2024, 1, 2, 3, 4, 5⟩ "aaa" true <
      buildBackupPath "sqlite" "mydb" "full" ⟨2024, 1, 2, 3, 4, 6⟩ "bbb" false := by
  have h := c6_storage_path_convention "sqlite" "mydb" "full" "aaa" "bbb"
    ⟨2024, 1, 2, 3, 4, 5⟩ ⟨2024, 1, 2, 3, 4, 6⟩ true false
    (by decide) (by decide) (by decide) (by decide) (by decide) (by decide) (by decide)
  exact ⟨h.1, h.2 (by decide)⟩
